import Mathlib

/-!
Verification of the hybrid Reciprocal Rank Fusion (RRF) search engine of
`memento-cloudflare` (`src/semantic-search.ts`, embedded in
`test-semantic-search-integration.ts`, together with the Cypher queries it
sends to the graph store).

Numbers are modelled by `ℚ` (JavaScript numbers, used here only through
`+`, `*`, `/`, comparison).  The external collaborators (the ANN index, the
`JSON.parse` builtin, the `Date` builtin) are parameters; the Cypher query
semantics executed by the store are modelled from the query strings in the
source.
-/

namespace Memento

/-- A row of the vector-similarity query
(`RETURN node.name AS id, node.entityType AS entityType, score AS vectorScore`). -/
structure VectorRecord where
  id : String
  entityType : String
  vectorScore : ℚ
deriving DecidableEq

/-- A row of the keyword query
(`RETURN e.name AS id, e.entityType AS entityType, bm25Score`). -/
structure KeywordRecord where
  id : String
  entityType : String
  bm25Score : ℚ
deriving DecidableEq

/-- The value type of the `rrfScores` map of `hybridSearchWithRRF`:
`{ score, entityType, vectorScore?, bm25Score? }`. -/
structure RRFEntry where
  score : ℚ
  entityType : String
  vectorScore : Option ℚ
  bm25Score : Option ℚ
deriving DecidableEq

/-- JavaScript `Map.set` semantics on an insertion-ordered association list:
an existing key keeps its position and has its value replaced, a new key is
appended at the end. -/
def mapSet (m : List (String × RRFEntry)) (k : String) (v : RRFEntry) :
    List (String × RRFEntry) :=
  match m with
  | [] => [(k, v)]
  | (k', v') :: t => if k' = k then (k, v) :: t else (k', v') :: mapSet t k v

/-- JavaScript `Map.get` semantics on the association list. -/
def mapGet (m : List (String × RRFEntry)) (k : String) : Option RRFEntry :=
  match m with
  | [] => none
  | (k', v') :: t => if k' = k then some v' else mapGet t k

/-- Model of `vectorResults.forEach((record, index) => { rrfScores.set(record.id,
{score: 1/(rrfK+index+1), entityType, vectorScore}) })`, with the running
`index` made explicit. -/
def addVectorResults (rrfK : ℚ) :
    ℕ → List VectorRecord → List (String × RRFEntry) → List (String × RRFEntry)
  | _, [], m => m
  | index, record :: rest, m =>
      addVectorResults rrfK (index + 1) rest
        (mapSet m record.id
          ⟨1 / (rrfK + (index : ℚ) + 1), record.entityType, some record.vectorScore, none⟩)

/-- Model of `keywordResults.forEach((record, index) => ...)`: a key already
present gets the SUM of its existing score and the new positional score,
keeping its `vectorScore`; a new key gets just the positional score. -/
def addKeywordResults (rrfK : ℚ) :
    ℕ → List KeywordRecord → List (String × RRFEntry) → List (String × RRFEntry)
  | _, [], m => m
  | index, record :: rest, m =>
      addKeywordResults rrfK (index + 1) rest
        (match mapGet m record.id with
          | some existing =>
              mapSet m record.id
                ⟨existing.score + 1 / (rrfK + (index : ℚ) + 1), record.entityType,
                  existing.vectorScore, some record.bm25Score⟩
          | none =>
              mapSet m record.id
                ⟨1 / (rrfK + (index : ℚ) + 1), record.entityType, none,
                  some record.bm25Score⟩)

/-- The fully populated `rrfScores` map, in insertion order: vector results
first, then keyword results. -/
def rrfMerged (rrfK : ℚ) (vectorResults : List VectorRecord)
    (keywordResults : List KeywordRecord) : List (String × RRFEntry) :=
  addKeywordResults rrfK 0 keywordResults (addVectorResults rrfK 0 vectorResults [])

/-- The comparison used by `.sort((a, b) => b[1].score - a[1].score)`:
`a` may precede `b` exactly when `a`'s score is at least `b`'s. -/
def rrfRel (a b : String × RRFEntry) : Prop := b.2.score ≤ a.2.score

instance : DecidableRel rrfRel :=
  fun a b => inferInstanceAs (Decidable (b.2.score ≤ a.2.score))

instance : IsTotal (String × RRFEntry) rrfRel := ⟨fun a b => le_total b.2.score a.2.score⟩

instance : IsTrans (String × RRFEntry) rrfRel := ⟨fun _ _ _ h1 h2 => le_trans h2 h1⟩

/-- Model of `Array.from(rrfScores.entries()).sort((a, b) => b[1].score -
a[1].score)`: a stable sort of the insertion-ordered entries, descending by
fused score. -/
def rrfSortedAll (rrfK : ℚ) (vectorResults : List VectorRecord)
    (keywordResults : List KeywordRecord) : List (String × RRFEntry) :=
  List.insertionSort rrfRel (rrfMerged rrfK vectorResults keywordResults)

/-- Step 4's `sortedResults`: the sorted entries cut by `.slice(0, limit)`. -/
def sortedResults (rrfK : ℚ) (limit : ℕ) (vectorResults : List VectorRecord)
    (keywordResults : List KeywordRecord) : List (String × RRFEntry) :=
  (rrfSortedAll rrfK vectorResults keywordResults).take limit

/-- The fused score the merge assigns to identifier `x`, when present. -/
def fusedScore (rrfK : ℚ) (vectorResults : List VectorRecord)
    (keywordResults : List KeywordRecord) (x : String) : Option ℚ :=
  (mapGet (rrfMerged rrfK vectorResults keywordResults) x).map RRFEntry.score

/-- How the keyword pass updates the entry of one identifier: a fresh
identifier gets the positional score, one already in the map gets the sum. -/
def combine (existing : Option RRFEntry) (rrfScore : ℚ) (record : KeywordRecord) : RRFEntry :=
  match existing with
  | some e => ⟨e.score + rrfScore, record.entityType, e.vectorScore, some record.bm25Score⟩
  | none => ⟨rrfScore, record.entityType, none, some record.bm25Score⟩

/-- Helper for Cypher `CONTAINS`: does the character list `s` start with `q`? -/
def startsWithChars : List Char → List Char → Bool
  | _, [] => true
  | [], _ :: _ => false
  | c :: s, d :: q => c == d && startsWithChars s q

/-- Helper for Cypher `CONTAINS`: does `q` occur as a contiguous run in `s`? -/
def hasSubChars : List Char → List Char → Bool
  | [], q => q.isEmpty
  | c :: s, q => startsWithChars (c :: s) q || hasSubChars s q

/-- Cypher `CONTAINS`: case-sensitive substring test. -/
def cypherContains (s q : String) : Bool := hasSubChars s.toList q.toList

/-- An entity node as the keyword query reads it: `e.name`, `e.entityType`
and the list `e.observations` the query iterates over. -/
structure KwEntity where
  name : String
  entityType : String
  observations : List String
deriving DecidableEq

/-- The keyword query's `CASE WHEN e.name CONTAINS $queryText THEN 2.0 ELSE
1.0 END AS nameBoost`. -/
def nameBoost (e : KwEntity) (queryText : String) : ℚ :=
  if cypherContains e.name queryText then 2 else 1

/-- The keyword query's `size([obs IN e.observations WHERE obs CONTAINS
$queryText]) AS obsMatches`. -/
def obsMatches (e : KwEntity) (queryText : String) : ℕ :=
  (e.observations.filter (fun obs => cypherContains obs queryText)).length

/-- The keyword query's `(nameBoost + (obsMatches * 0.5)) AS bm25Score`. -/
def bm25Score (e : KwEntity) (queryText : String) : ℚ :=
  nameBoost e queryText + (obsMatches e queryText : ℚ) * (1 / 2)

/-- The keyword query's `WHERE e.name CONTAINS $queryText OR ANY(obs IN
e.observations WHERE obs CONTAINS $queryText)`. -/
def keywordMatches (e : KwEntity) (queryText : String) : Bool :=
  cypherContains e.name queryText
    || e.observations.any (fun obs => cypherContains obs queryText)

/-- The keyword query's row set before `ORDER BY` and `LIMIT`: matching
entities scored, then the (vacuous) `WHERE bm25Score > 0` filter. -/
def keywordQueryRows (entities : List KwEntity) (queryText : String) : List KeywordRecord :=
  ((entities.filter (fun e => keywordMatches e queryText)).map
      (fun e => (⟨e.name, e.entityType, bm25Score e queryText⟩ : KeywordRecord))).filter
    (fun r => decide (0 < r.bm25Score))

/-- External JavaScript builtins used by hydration: `JSON.parse` specialised
to string arrays (`none` models a parse that throws or yields a non-array)
and the date rendering `new Date(ts).toISOString().split('T')[0]` (`none`
models an invalid date). -/
structure Ext where
  jsonParse : String → Option (List String)
  renderDate : ℤ → Option String

/-- Model of `formatTimestamp` from `src/utils/date-utils.ts`: a `null` or
absent timestamp and an invalid date render as `null`, otherwise as the
date-only string. -/
def formatTimestamp (render : ℤ → Option String) (ts : Option ℤ) : Option String :=
  match ts with
  | none => none
  | some t => render t

/-- An `Entity` node of the graph store, with the fields the hydration query
projects; `observations` is the stored serialized string later given to
`JSON.parse`, and the node is currently visible iff `validTo` is absent. -/
structure EntityNode where
  name : String
  entityType : String
  observations : String
  id : String
  version : ℤ
  createdAt : Option ℤ
  updatedAt : Option ℤ
  validTo : Option ℤ
deriving DecidableEq

/-- A `RELATES_TO` edge; the Cypher pattern
`(from:Entity)-[r:RELATES_TO]->(to:Entity)` binds the endpoint nodes. -/
structure RelationEdge where
  fromNode : EntityNode
  toNode : EntityNode
  relationType : String
  validTo : Option ℤ
deriving DecidableEq

/-- The graph store's state: entity nodes (in the store's row order) and
`RELATES_TO` edges. -/
structure Graph where
  nodes : List EntityNode
  edges : List RelationEdge
deriving DecidableEq

/-- The `Entity` record of a `SearchResult`. -/
structure Entity where
  name : String
  entityType : String
  observations : List String
  id : String
  version : ℤ
  createdAt : Option ℤ
  updatedAt : Option ℤ
  created : Option String
  updated : Option String
deriving DecidableEq

/-- The `Relation` record `{ from, to, relationType }`; the endpoint fields
follow the query aliases `fromName`/`toName` because `from` is reserved. -/
structure Relation where
  fromName : String
  toName : String
  relationType : String
deriving DecidableEq

/-- The `SearchResult` record; `timeTaken` (wall clock) is not modelled. -/
structure SearchResult where
  entities : List Entity
  relations : List Relation
  total : ℕ
deriving DecidableEq

/-- The `SearchOptions` record; an absent field is `none`. -/
structure SearchOptions where
  limit : Option ℕ
  minSimilarity : Option ℚ
  entityTypes : Option (List String)
  hybridSearch : Option Bool
  rrfK : Option ℚ

/-- JavaScript `options.limit || 10`: an absent or zero limit falls back to
the default 10 (0 is falsy). -/
def effLimit (limit : Option ℕ) : ℕ :=
  match limit with
  | none => 10
  | some n => if n = 0 then 10 else n

/-- JavaScript `options.rrfK || 60`. -/
def effRrfK (rrfK : Option ℚ) : ℚ :=
  match rrfK with
  | none => 60
  | some k => if k = 0 then 60 else k

/-- JavaScript `options.minSimilarity || 0.6`. -/
def effMinSimilarity (minSimilarity : Option ℚ) : ℚ :=
  match minSimilarity with
  | none => 3 / 5
  | some q => if q = 0 then 3 / 5 else q

/-- The hydration entity query (`MATCH (e:Entity) WHERE e.name IN $names AND
e.validTo IS NULL RETURN ...`): visible nodes whose name is in `$names`, in
the store's row order — the query has no `ORDER BY`. -/
def entityQueryRows (g : Graph) (names : List String) : List EntityNode :=
  g.nodes.filter (fun n => names.contains n.name && n.validTo.isNone)

/-- The hydration relation query: `RELATES_TO` edges with both endpoint
names in `$names` and the edge's own `validTo` absent, projected to
`(fromName, toName, relationType)`. -/
def relationQueryRows (g : Graph) (names : List String) : List Relation :=
  (g.edges.filter (fun r =>
      names.contains r.fromNode.name && names.contains r.toNode.name
        && r.validTo.isNone)).map
    (fun r => ⟨r.fromNode.name, r.toNode.name, r.relationType⟩)

/-- The per-row mapping of step 5: `JSON.parse(e.observations)` under
`try/catch` with `[]` substituted on failure, plus the display dates. -/
def hydrateEntity (ext : Ext) (n : EntityNode) : Entity :=
  ⟨n.name, n.entityType, (ext.jsonParse n.observations).getD [], n.id, n.version,
    n.createdAt, n.updatedAt, formatTimestamp ext.renderDate n.createdAt,
    formatTimestamp ext.renderDate n.updatedAt⟩

/-- Model of `hybridSearchWithRRF(neo4j, queryVector, queryText, options)`.
The two ranker queries are executed by the external store; they receive the
`$limit` parameter `Math.floor(limit * 2)` and are modelled as response
functions.  The second component records whether the hydration queries were
issued (false exactly on the `sortedResults.length === 0` short-circuit). -/
def hybridSearchWithRRF (ext : Ext) (g : Graph)
    (vectorQuery : ℕ → List VectorRecord) (keywordQuery : ℕ → List KeywordRecord)
    (options : SearchOptions) : SearchResult × Bool :=
  let limit := effLimit options.limit
  let rrfK := effRrfK options.rrfK
  let vectorResults := vectorQuery (limit * 2)
  let keywordResults := keywordQuery (limit * 2)
  let sorted := sortedResults rrfK limit vectorResults keywordResults
  if sorted.isEmpty then
    (⟨[], [], 0⟩, false)
  else
    let entityNames := sorted.map Prod.fst
    let rows := entityQueryRows g entityNames
    (⟨rows.map (hydrateEntity ext), relationQueryRows g entityNames, rows.length⟩, true)

/-- The fused, truncated candidate identifiers (`entityNames` of step 5). -/
def hybridNames (vectorQuery : ℕ → List VectorRecord)
    (keywordQuery : ℕ → List KeywordRecord) (options : SearchOptions) : List String :=
  (sortedResults (effRrfK options.rrfK) (effLimit options.limit)
      (vectorQuery (effLimit options.limit * 2))
      (keywordQuery (effLimit options.limit * 2))).map Prod.fst

/-- A row of the pure vector search's ANN query
(`RETURN node.name AS name, node.entityType AS entityType, score`). -/
structure VectorSearchRecord where
  name : String
  entityType : String
  score : ℚ
deriving DecidableEq

/-- Model of `vectorSearch(neo4j, queryVector, options)`: the ANN query
receives `$limit` and `$minScore` and is modelled as a response function;
hydration is as in the hybrid path.  The flag again records whether
hydration was issued. -/
def vectorSearch (ext : Ext) (g : Graph)
    (annQuery : ℕ → ℚ → List VectorSearchRecord) (options : SearchOptions) :
    SearchResult × Bool :=
  let limit := effLimit options.limit
  let minSimilarity := effMinSimilarity options.minSimilarity
  let vectorResults := annQuery limit minSimilarity
  if vectorResults.isEmpty then
    (⟨[], [], 0⟩, false)
  else
    let entityNames := vectorResults.map VectorSearchRecord.name
    let rows := entityQueryRows g entityNames
    (⟨rows.map (hydrateEntity ext), relationQueryRows g entityNames, rows.length⟩, true)

theorem mapGet_mapSet_self (m : List (String × RRFEntry)) (k : String) (v : RRFEntry) :
    mapGet (mapSet m k v) k = some v := by
  induction m with
  | nil => simp [mapSet, mapGet]
  | cons p t ih =>
      obtain ⟨k', v'⟩ := p
      by_cases h : k' = k
      · subst h; simp [mapSet, mapGet]
      · simp [mapSet, mapGet, h, ih]

theorem mapGet_mapSet_ne {m : List (String × RRFEntry)} {k x : String} {v : RRFEntry}
    (h : x ≠ k) : mapGet (mapSet m k v) x = mapGet m x := by
  induction m with
  | nil => simp [mapSet, mapGet, Ne.symm h]
  | cons p t ih =>
      obtain ⟨k', v'⟩ := p
      by_cases hk : k' = k
      · subst hk
        simp [mapSet, mapGet, h, Ne.symm h]
      · by_cases hx : k' = x
        · subst hx; simp [mapSet, mapGet, hk]
        · simp [mapSet, mapGet, hk, hx, ih]

theorem addVectorResults_mapGet_of_not_mem (rrfK : ℚ) (x : String) :
    ∀ (recs : List VectorRecord) (i : ℕ) (m : List (String × RRFEntry)),
      x ∉ recs.map VectorRecord.id →
      mapGet (addVectorResults rrfK i recs m) x = mapGet m x := by
  intro recs
  induction recs with
  | nil => intro i m _; rfl
  | cons r rest ih =>
      intro i m hx
      simp only [List.map_cons, List.mem_cons, not_or] at hx
      rw [addVectorResults, ih (i + 1) _ hx.2, mapGet_mapSet_ne hx.1]

theorem addVectorResults_mapGet_rank (rrfK : ℚ) :
    ∀ (recs : List VectorRecord), (recs.map VectorRecord.id).Nodup →
    ∀ (j : ℕ) (r : VectorRecord), recs.get? j = some r →
    ∀ (i : ℕ) (m : List (String × RRFEntry)),
      mapGet (addVectorResults rrfK i recs m) r.id
        = some ⟨1 / (rrfK + ((i + j : ℕ) : ℚ) + 1), r.entityType, some r.vectorScore, none⟩ := by
  intro recs
  induction recs with
  | nil => intro _ j r hj; simp at hj
  | cons a rest ih =>
      intro hnd j r hj i m
      simp only [List.map_cons, List.nodup_cons] at hnd
      match j, hj with
      | 0, hj =>
          have ha : a = r := by simpa using hj
          subst ha
          rw [addVectorResults,
            addVectorResults_mapGet_of_not_mem rrfK a.id rest (i + 1) _ hnd.1,
            mapGet_mapSet_self]
          simp
      | (j' + 1), hj =>
          have hj' : rest.get? j' = some r := by simpa using hj
          rw [addVectorResults, ih hnd.2 j' r hj' (i + 1) _]
          have : i + 1 + j' = i + (j' + 1) := by omega
          rw [this]

theorem addKeywordResults_mapGet_of_not_mem (rrfK : ℚ) (x : String) :
    ∀ (recs : List KeywordRecord) (i : ℕ) (m : List (String × RRFEntry)),
      x ∉ recs.map KeywordRecord.id →
      mapGet (addKeywordResults rrfK i recs m) x = mapGet m x := by
  intro recs
  induction recs with
  | nil => intro i m _; rfl
  | cons r rest ih =>
      intro i m hx
      simp only [List.map_cons, List.mem_cons, not_or] at hx
      have key : ∀ v, mapGet (addKeywordResults rrfK (i + 1) rest (mapSet m r.id v)) x
          = mapGet m x := by
        intro v
        rw [ih (i + 1) _ hx.2, mapGet_mapSet_ne hx.1]
      rw [addKeywordResults]
      cases mapGet m r.id
      · exact key _
      · exact key _

theorem addKeywordResults_mapGet_rank (rrfK : ℚ) :
    ∀ (recs : List KeywordRecord), (recs.map KeywordRecord.id).Nodup →
    ∀ (j : ℕ) (r : KeywordRecord), recs.get? j = some r →
    ∀ (i : ℕ) (m : List (String × RRFEntry)),
      mapGet (addKeywordResults rrfK i recs m) r.id
        = some (combine (mapGet m r.id) (1 / (rrfK + ((i + j : ℕ) : ℚ) + 1)) r) := by
  intro recs
  induction recs with
  | nil => intro _ j r hj; simp at hj
  | cons a rest ih =>
      intro hnd j r hj i m
      simp only [List.map_cons, List.nodup_cons] at hnd
      match j, hj with
      | 0, hj =>
          have ha : a = r := by simpa using hj
          subst ha
          rw [addKeywordResults]
          cases hg : mapGet m a.id with
          | none =>
              rw [addKeywordResults_mapGet_of_not_mem rrfK a.id rest (i + 1) _ hnd.1]
              simp [combine, mapGet_mapSet_self]
          | some e =>
              rw [addKeywordResults_mapGet_of_not_mem rrfK a.id rest (i + 1) _ hnd.1]
              simp [combine, mapGet_mapSet_self]
      | (j' + 1), hj =>
          have hj' : rest.get? j' = some r := by simpa using hj
          have hmem : r.id ∈ rest.map KeywordRecord.id := by
            exact List.mem_map_of_mem _ (List.get?_mem hj')
          have hne : r.id ≠ a.id := fun h => hnd.1 (h ▸ hmem)
          have harith : i + 1 + j' = i + (j' + 1) := by omega
          rw [addKeywordResults]
          cases hg : mapGet m a.id with
          | none =>
              rw [ih hnd.2 j' r hj' (i + 1) _, harith]
              simp [combine, mapGet_mapSet_ne hne]
          | some e =>
              rw [ih hnd.2 j' r hj' (i + 1) _, harith]
              simp [combine, mapGet_mapSet_ne hne]

theorem fusedScore_both (k : ℚ) {v : List VectorRecord} {l : List KeywordRecord}
    {x : String} {i j : ℕ}
    (hv : (v.map VectorRecord.id).Nodup) (hl : (l.map KeywordRecord.id).Nodup)
    (hvi : (v.map VectorRecord.id).get? i = some x)
    (hlj : (l.map KeywordRecord.id).get? j = some x) :
    fusedScore k v l x = some (1 / (k + (i : ℚ) + 1) + 1 / (k + (j : ℚ) + 1)) := by
  rw [List.get?_map] at hvi hlj
  cases hvrec : v.get? i with
  | none => rw [hvrec] at hvi; simp at hvi
  | some rv =>
      rw [hvrec] at hvi
      simp only [Option.map_some', Option.some.injEq] at hvi
      cases hlrec : l.get? j with
      | none => rw [hlrec] at hlj; simp at hlj
      | some rk =>
          rw [hlrec] at hlj
          simp only [Option.map_some', Option.some.injEq] at hlj
          have hmain := addKeywordResults_mapGet_rank k l hl j rk hlrec 0
            (addVectorResults k 0 v [])
          have hph1 := addVectorResults_mapGet_rank k v hv i rv hvrec 0 []
          rw [hlj] at hmain
          rw [hvi] at hph1
          rw [fusedScore, rrfMerged, hmain, hph1]
          simp [combine]

theorem fusedScore_vector_only (k : ℚ) {v : List VectorRecord} {l : List KeywordRecord}
    {x : String} {i : ℕ}
    (hv : (v.map VectorRecord.id).Nodup)
    (hvi : (v.map VectorRecord.id).get? i = some x)
    (hnl : x ∉ l.map KeywordRecord.id) :
    fusedScore k v l x = some (1 / (k + (i : ℚ) + 1)) := by
  rw [List.get?_map] at hvi
  cases hvrec : v.get? i with
  | none => rw [hvrec] at hvi; simp at hvi
  | some rv =>
      rw [hvrec] at hvi
      simp only [Option.map_some', Option.some.injEq] at hvi
      have hph1 := addVectorResults_mapGet_rank k v hv i rv hvrec 0 []
      rw [hvi] at hph1
      rw [fusedScore, rrfMerged, addKeywordResults_mapGet_of_not_mem k x l 0 _ hnl, hph1]
      simp

theorem fusedScore_keyword_only (k : ℚ) {v : List VectorRecord} {l : List KeywordRecord}
    {x : String} {j : ℕ}
    (hl : (l.map KeywordRecord.id).Nodup)
    (hnv : x ∉ v.map VectorRecord.id)
    (hlj : (l.map KeywordRecord.id).get? j = some x) :
    fusedScore k v l x = some (1 / (k + (j : ℚ) + 1)) := by
  rw [List.get?_map] at hlj
  cases hlrec : l.get? j with
  | none => rw [hlrec] at hlj; simp at hlj
  | some rk =>
      rw [hlrec] at hlj
      simp only [Option.map_some', Option.some.injEq] at hlj
      have hmain := addKeywordResults_mapGet_rank k l hl j rk hlrec 0
        (addVectorResults k 0 v [])
      rw [hlj] at hmain
      have hph1 := addVectorResults_mapGet_of_not_mem k x v 0 [] hnv
      rw [fusedScore, rrfMerged, hmain, hph1]
      simp [combine, mapGet]

/-- Claim C1: RRF fused-score formula.  For candidate lists whose identifiers
are pairwise distinct within each list (the spec's `id` is a unique key), an
identifier at zero-based rank `i` in the vector list and rank `j` in the
keyword list gets fused score `1/(k+i+1) + 1/(k+j+1)`; an identifier in
exactly one of the lists gets exactly its single positional score. -/
theorem rrf_fused_score_formula (k : ℚ) (v : List VectorRecord) (l : List KeywordRecord)
    (x : String) (i j : ℕ)
    (hv : (v.map VectorRecord.id).Nodup) (hl : (l.map KeywordRecord.id).Nodup) :
    ((v.map VectorRecord.id).get? i = some x ∧ (l.map KeywordRecord.id).get? j = some x →
        fusedScore k v l x = some (1 / (k + (i : ℚ) + 1) + 1 / (k + (j : ℚ) + 1)))
    ∧ ((v.map VectorRecord.id).get? i = some x ∧ x ∉ l.map KeywordRecord.id →
        fusedScore k v l x = some (1 / (k + (i : ℚ) + 1)))
    ∧ (x ∉ v.map VectorRecord.id ∧ (l.map KeywordRecord.id).get? j = some x →
        fusedScore k v l x = some (1 / (k + (j : ℚ) + 1))) :=
  ⟨fun h => fusedScore_both k hv hl h.1 h.2,
   fun h => fusedScore_vector_only k hv h.1 h.2,
   fun h => fusedScore_keyword_only k hl h.1 h.2⟩

/-- Witness for Claim C1 at `k = 60`, vector list `[a, b]`, keyword list
`[b, c]`: `b` is in both lists (ranks 1 and 0), `a` only in the vector list
(rank 0), `c` only in the keyword list (rank 1). -/
theorem rrf_fused_score_formula_witness :
    fusedScore 60 [⟨"a", "T", 9/10⟩, ⟨"b", "T", 4/5⟩] [⟨"b", "T", 2⟩, ⟨"c", "T", 1⟩] "b"
        = some (1/62 + 1/61)
    ∧ fusedScore 60 [⟨"a", "T", 9/10⟩, ⟨"b", "T", 4/5⟩] [⟨"b", "T", 2⟩, ⟨"c", "T", 1⟩] "a"
        = some (1/61)
    ∧ fusedScore 60 [⟨"a", "T", 9/10⟩, ⟨"b", "T", 4/5⟩] [⟨"b", "T", 2⟩, ⟨"c", "T", 1⟩] "c"
        = some (1/62) := by
  refine ⟨?_, ?_, ?_⟩
  · have h := (rrf_fused_score_formula 60 [⟨"a", "T", 9/10⟩, ⟨"b", "T", 4/5⟩]
      [⟨"b", "T", 2⟩, ⟨"c", "T", 1⟩] "b" 1 0 (by decide) (by decide)).1
      ⟨by decide, by decide⟩
    rw [h]; norm_num
  · have h := (rrf_fused_score_formula 60 [⟨"a", "T", 9/10⟩, ⟨"b", "T", 4/5⟩]
      [⟨"b", "T", 2⟩, ⟨"c", "T", 1⟩] "a" 0 0 (by decide) (by decide)).2.1
      ⟨by decide, by decide⟩
    rw [h]; norm_num
  · have h := (rrf_fused_score_formula 60 [⟨"a", "T", 9/10⟩, ⟨"b", "T", 4/5⟩]
      [⟨"b", "T", 2⟩, ⟨"c", "T", 1⟩] "c" 0 1 (by decide) (by decide)).2.2
      ⟨by decide, by decide⟩
    rw [h]; norm_num

/-- Claim C2: both-lists boost.  For `k > 0`, an identifier present in both
lists (at ranks `i` and `j`, identifiers unique within each list) has a fused
score strictly greater than either single positional score `1/(k+i+1)` or
`1/(k+j+1)` it would get from one list alone. -/
theorem rrf_both_lists_boost (k : ℚ) (v : List VectorRecord) (l : List KeywordRecord)
    (x : String) (i j : ℕ) (hk : 0 < k)
    (hv : (v.map VectorRecord.id).Nodup) (hl : (l.map KeywordRecord.id).Nodup)
    (hvi : (v.map VectorRecord.id).get? i = some x)
    (hlj : (l.map KeywordRecord.id).get? j = some x) :
    ∃ s : ℚ, fusedScore k v l x = some s
      ∧ s = 1 / (k + (i : ℚ) + 1) + 1 / (k + (j : ℚ) + 1)
      ∧ 1 / (k + (i : ℚ) + 1) < s ∧ 1 / (k + (j : ℚ) + 1) < s := by
  have hi : (0 : ℚ) < 1 / (k + (i : ℚ) + 1) := by positivity
  have hj : (0 : ℚ) < 1 / (k + (j : ℚ) + 1) := by positivity
  exact ⟨_, fusedScore_both k hv hl hvi hlj, rfl,
    lt_add_of_pos_right _ hj, lt_add_of_pos_left _ hi⟩

/-- Witness for Claim C2 at `k = 60`: identifier `b` is at rank 1 of the
vector list and rank 0 of the keyword list. -/
theorem rrf_both_lists_boost_witness :
    ∃ s : ℚ, fusedScore 60 [⟨"a", "T", 9/10⟩, ⟨"b", "T", 4/5⟩]
        [⟨"b", "T", 2⟩, ⟨"c", "T", 1⟩] "b" = some s
      ∧ s = 1 / (60 + ((1 : ℕ) : ℚ) + 1) + 1 / (60 + ((0 : ℕ) : ℚ) + 1)
      ∧ 1 / (60 + ((1 : ℕ) : ℚ) + 1) < s ∧ 1 / (60 + ((0 : ℕ) : ℚ) + 1) < s :=
  rrf_both_lists_boost 60 [⟨"a", "T", 9/10⟩, ⟨"b", "T", 4/5⟩]
    [⟨"b", "T", 2⟩, ⟨"c", "T", 1⟩] "b" 1 0 (by norm_num) (by decide) (by decide)
    (by decide) (by decide)

theorem filter_orderedInsert_of_eq (s : ℚ) (a : String × RRFEntry) (h : a.2.score = s) :
    ∀ l : List (String × RRFEntry),
      (List.orderedInsert rrfRel a l).filter (fun q => decide (q.2.score = s))
        = a :: l.filter (fun q => decide (q.2.score = s)) := by
  intro l
  induction l with
  | nil => simp [List.orderedInsert, h]
  | cons b t ih =>
      by_cases hr : rrfRel a b
      · rw [List.orderedInsert_of_le rrfRel t hr]
        simp [h]
      · have hlt : a.2.score < b.2.score := lt_of_not_le hr
        have hbs : ¬ b.2.score = s := by rw [← h]; exact ne_of_gt hlt
        simp only [List.orderedInsert, if_neg hr, List.filter_cons, ih]
        simp [hbs]

theorem filter_orderedInsert_of_ne (s : ℚ) (a : String × RRFEntry) (h : ¬ a.2.score = s) :
    ∀ l : List (String × RRFEntry),
      (List.orderedInsert rrfRel a l).filter (fun q => decide (q.2.score = s))
        = l.filter (fun q => decide (q.2.score = s)) := by
  intro l
  induction l with
  | nil => simp [List.orderedInsert, h]
  | cons b t ih =>
      by_cases hr : rrfRel a b
      · rw [List.orderedInsert_of_le rrfRel t hr]
        simp [h]
      · simp only [List.orderedInsert, if_neg hr, List.filter_cons, ih]

/-- Stability of the sort used in step 4: filtering the sorted entry list to
any fixed fused score gives exactly the same-score entries in their original
(insertion) order. -/
theorem filter_insertionSort (s : ℚ) :
    ∀ l : List (String × RRFEntry),
      (List.insertionSort rrfRel l).filter (fun q => decide (q.2.score = s))
        = l.filter (fun q => decide (q.2.score = s)) := by
  intro l
  induction l with
  | nil => rfl
  | cons a t ih =>
      by_cases ha : a.2.score = s
      · rw [List.insertionSort, filter_orderedInsert_of_eq s a ha, ih]
        simp [ha]
      · rw [List.insertionSort, filter_orderedInsert_of_ne s a ha, ih]
        simp [ha]

/-- Claim C4: the fusion is deterministic (identical inputs give the
identical fused ordering, ties included), the fused list is sorted by fused
score descending, and ties keep the order in which identifiers were first
inserted into the `rrfScores` map (vector entries first, then new keyword
entries, earlier positions first): filtering the sorted list to any fixed
score equals filtering the insertion-ordered merged list. -/
theorem rrf_fusion_deterministic_and_stable :
    (∀ (k₁ k₂ : ℚ) (v₁ v₂ : List VectorRecord) (l₁ l₂ : List KeywordRecord) (n₁ n₂ : ℕ),
        k₁ = k₂ → v₁ = v₂ → l₁ = l₂ → n₁ = n₂ →
        sortedResults k₁ n₁ v₁ l₁ = sortedResults k₂ n₂ v₂ l₂)
    ∧ (∀ (k : ℚ) (v : List VectorRecord) (l : List KeywordRecord),
        (rrfSortedAll k v l).Sorted rrfRel)
    ∧ (∀ (k : ℚ) (v : List VectorRecord) (l : List KeywordRecord) (s : ℚ),
        (rrfSortedAll k v l).filter (fun q => decide (q.2.score = s))
          = (rrfMerged k v l).filter (fun q => decide (q.2.score = s))) :=
  ⟨fun _ _ _ _ _ _ _ _ hk hv hl hn => by rw [hk, hv, hl, hn],
   fun k v l => List.sorted_insertionSort rrfRel (rrfMerged k v l),
   fun k v l s => filter_insertionSort s (rrfMerged k v l)⟩

/-- Witness for Claim C4: two textually identical calls at `k = 60`,
`limit = 5` produce the same fused ordering. -/
theorem rrf_fusion_deterministic_and_stable_witness :
    sortedResults 60 5 [⟨"a", "T", 1⟩] [⟨"b", "T", 2⟩]
      = sortedResults 60 5 [⟨"a", "T", 1⟩] [⟨"b", "T", 2⟩] :=
  rrf_fusion_deterministic_and_stable.1 60 60 [⟨"a", "T", 1⟩] [⟨"a", "T", 1⟩]
    [⟨"b", "T", 2⟩] [⟨"b", "T", 2⟩] 5 5 rfl rfl rfl rfl

/-- Counterexample to Claim C3: in the scenario (vector list `[A@0, B@1, C@2]`,
keyword list `[B@0, D@1]`, `k = 60`) the code gives `A` the fused score
`1/(60+0+1) = 1/61` but `D` the fused score `1/(60+1+1) = 1/62`; the claimed
tie `A = D = 0.016393…` does not hold. -/
theorem rrf_scenario_no_tie :
    fusedScore 60 [⟨"A", "T", 9/10⟩, ⟨"B", "T", 4/5⟩, ⟨"C", "T", 7/10⟩]
        [⟨"B", "T", 2⟩, ⟨"D", "T", 1⟩] "A" = some (1/61)
    ∧ fusedScore 60 [⟨"A", "T", 9/10⟩, ⟨"B", "T", 4/5⟩, ⟨"C", "T", 7/10⟩]
        [⟨"B", "T", 2⟩, ⟨"D", "T", 1⟩] "D" = some (1/62)
    ∧ ¬ ((1/62 : ℚ) = 1/61) := by
  refine ⟨?_, ?_, by norm_num⟩ <;>
    norm_num +decide [fusedScore, rrfMerged, addKeywordResults, addVectorResults, mapSet,
      mapGet]

/-- Claim C3 as amended: for vector list `[A@0, B@1, C@2]`, keyword list
`[B@0, D@1]` and `k = 60` the fused ordering is `B` (score `1/62 + 1/61 =
0.032522…`), then `A` (`1/61 = 0.016393…`), then `D` (`1/62 = 0.016129…`),
then `C` (`1/63 = 0.015873…`); `A` and `D` are not tied, no tie-break is
exercised, and `B`'s score is `0.032522…`, not `0.032796…`. -/
theorem rrf_scenario_fused_order :
    (sortedResults 60 10 [⟨"A", "T", 9/10⟩, ⟨"B", "T", 4/5⟩, ⟨"C", "T", 7/10⟩]
        [⟨"B", "T", 2⟩, ⟨"D", "T", 1⟩]).map (fun p => (p.1, p.2.score))
      = [("B", 1/62 + 1/61), ("A", 1/61), ("D", 1/62), ("C", 1/63)] := by
  norm_num [sortedResults, rrfSortedAll, rrfMerged, addKeywordResults, addVectorResults,
    mapSet, mapGet, List.insertionSort, List.orderedInsert, rrfRel]

/-- Claim C6: the lexical scoring rule.  An entity is a keyword candidate
iff its name contains the query or at least one observation does (so the
`WHERE bm25Score > 0` filter never removes a row); the score is
`nameBoost + 0.5 * obsMatches` with `nameBoost = 2` on a name match and `1`
otherwise; a name-only match scores `2.0`, three observation matches
without a name match score `2.5`, and a name match plus two observation
matches scores `3.0`. -/
theorem lexical_scoring_rule :
    (∀ (entities : List KwEntity) (q : String),
        keywordQueryRows entities q
          = (entities.filter (fun e => keywordMatches e q)).map
              (fun e => ⟨e.name, e.entityType, bm25Score e q⟩))
    ∧ (∀ (entities : List KwEntity) (q : String) (e : KwEntity),
        e ∈ entities.filter (fun e => keywordMatches e q)
          ↔ e ∈ entities ∧ (cypherContains e.name q = true
              ∨ ∃ obs ∈ e.observations, cypherContains obs q = true))
    ∧ (∀ (e : KwEntity) (q : String),
        bm25Score e q
          = (if cypherContains e.name q then 2 else 1) + (obsMatches e q : ℚ) * (1 / 2))
    ∧ (keywordMatches ⟨"TeamBadass", "team", ["hello"]⟩ "TeamBadass" = true
        ∧ bm25Score ⟨"TeamBadass", "team", ["hello"]⟩ "TeamBadass" = 2)
    ∧ (keywordMatches ⟨"e2", "T", ["xqx", "aqa", "bqb", "zz"]⟩ "q" = true
        ∧ bm25Score ⟨"e2", "T", ["xqx", "aqa", "bqb", "zz"]⟩ "q" = 5/2)
    ∧ (keywordMatches ⟨"q-entity", "T", ["xqx", "aqa", "zz"]⟩ "q" = true
        ∧ bm25Score ⟨"q-entity", "T", ["xqx", "aqa", "zz"]⟩ "q" = 3) := by
  refine ⟨?_, ?_, ?_, ?_, ?_, ?_⟩
  · intro entities q
    rw [keywordQueryRows]
    apply List.filter_eq_self.mpr
    intro r hr
    obtain ⟨e, _, rfl⟩ := List.mem_map.mp hr
    have h1 : (1 : ℚ) ≤ nameBoost e q := by
      rw [nameBoost]; split <;> norm_num
    have h2 : (0 : ℚ) ≤ (obsMatches e q : ℚ) * (1 / 2) := by positivity
    simp only [decide_eq_true_eq]
    show (0 : ℚ) < bm25Score e q
    rw [bm25Score]
    linarith
  · intro entities q e
    simp [List.mem_filter, keywordMatches, List.any_eq_true]
  · intro e q; rfl
  · exact ⟨by decide,
      by norm_num +decide [bm25Score, nameBoost, obsMatches, cypherContains]⟩
  · exact ⟨by decide,
      by norm_num +decide [bm25Score, nameBoost, obsMatches, cypherContains]⟩
  · exact ⟨by decide,
      by norm_num +decide [bm25Score, nameBoost, obsMatches, cypherContains]⟩

/-- Claim C10: passing 0 for `limit`, `rrfK` or `minSimilarity` is
indistinguishable from omitting the option, since `0 || default` yields the
default (10, 60 and 0.6 respectively): no caller can request a zero limit,
a zero RRF constant or a zero similarity floor. -/
theorem zero_options_fall_back_to_defaults :
    (∀ (ext : Ext) (g : Graph) (vq : ℕ → List VectorRecord)
        (kq : ℕ → List KeywordRecord) (ms : Option ℚ) (et : Option (List String))
        (hs : Option Bool) (rk : Option ℚ),
        hybridSearchWithRRF ext g vq kq ⟨some 0, ms, et, hs, rk⟩
          = hybridSearchWithRRF ext g vq kq ⟨none, ms, et, hs, rk⟩)
    ∧ (∀ (ext : Ext) (g : Graph) (vq : ℕ → List VectorRecord)
        (kq : ℕ → List KeywordRecord) (lm : Option ℕ) (ms : Option ℚ)
        (et : Option (List String)) (hs : Option Bool),
        hybridSearchWithRRF ext g vq kq ⟨lm, ms, et, hs, some 0⟩
          = hybridSearchWithRRF ext g vq kq ⟨lm, ms, et, hs, none⟩)
    ∧ (∀ (ext : Ext) (g : Graph) (ann : ℕ → ℚ → List VectorSearchRecord)
        (ms : Option ℚ) (et : Option (List String)) (hs : Option Bool) (rk : Option ℚ),
        vectorSearch ext g ann ⟨some 0, ms, et, hs, rk⟩
          = vectorSearch ext g ann ⟨none, ms, et, hs, rk⟩)
    ∧ (∀ (ext : Ext) (g : Graph) (ann : ℕ → ℚ → List VectorSearchRecord)
        (lm : Option ℕ) (et : Option (List String)) (hs : Option Bool) (rk : Option ℚ),
        vectorSearch ext g ann ⟨lm, some 0, et, hs, rk⟩
          = vectorSearch ext g ann ⟨lm, none, et, hs, rk⟩)
    ∧ effLimit (some 0) = effLimit none
    ∧ effRrfK (some 0) = effRrfK none
    ∧ effMinSimilarity (some 0) = effMinSimilarity none :=
  ⟨fun _ _ _ _ _ _ _ _ => rfl, fun _ _ _ _ _ _ _ _ => rfl,
   fun _ _ _ _ _ _ _ => rfl, fun _ _ _ _ _ _ _ => rfl, rfl, rfl, rfl⟩

theorem effLimit_pos (o : Option ℕ) : 0 < effLimit o := by
  cases o with
  | none => norm_num [effLimit]
  | some n =>
      rw [effLimit]
      split
      · norm_num
      · omega

theorem mapSet_ne_nil (m : List (String × RRFEntry)) (k : String) (v : RRFEntry) :
    mapSet m k v ≠ [] := by
  cases m with
  | nil => simp [mapSet]
  | cons p t =>
      obtain ⟨k', v'⟩ := p
      rw [mapSet]
      split <;> simp

theorem addVectorResults_eq_nil_iff (rrfK : ℚ) :
    ∀ (recs : List VectorRecord) (i : ℕ) (m : List (String × RRFEntry)),
      addVectorResults rrfK i recs m = [] ↔ recs = [] ∧ m = [] := by
  intro recs
  induction recs with
  | nil => intro i m; rw [addVectorResults]; simp
  | cons r rest ih =>
      intro i m
      rw [addVectorResults, ih]
      simp [mapSet_ne_nil]

theorem addKeywordResults_eq_nil_iff (rrfK : ℚ) :
    ∀ (recs : List KeywordRecord) (i : ℕ) (m : List (String × RRFEntry)),
      addKeywordResults rrfK i recs m = [] ↔ recs = [] ∧ m = [] := by
  intro recs
  induction recs with
  | nil => intro i m; rw [addKeywordResults]; simp
  | cons r rest ih =>
      intro i m
      rw [addKeywordResults]
      cases mapGet m r.id with
      | none => rw [ih]; simp [mapSet_ne_nil]
      | some e => rw [ih]; simp [mapSet_ne_nil]

theorem rrfMerged_eq_nil_iff (rrfK : ℚ) (v : List VectorRecord) (l : List KeywordRecord) :
    rrfMerged rrfK v l = [] ↔ v = [] ∧ l = [] := by
  rw [rrfMerged, addKeywordResults_eq_nil_iff, addVectorResults_eq_nil_iff]
  tauto

theorem sortedResults_eq_nil_iff (rrfK : ℚ) (n : ℕ) (hn : 0 < n)
    (v : List VectorRecord) (l : List KeywordRecord) :
    sortedResults rrfK n v l = [] ↔ v = [] ∧ l = [] := by
  rw [sortedResults, List.take_eq_nil_iff, rrfSortedAll]
  constructor
  · rintro (h | h)
    · omega
    · have hlen := List.length_insertionSort rrfRel (rrfMerged rrfK v l)
      rw [h] at hlen
      exact (rrfMerged_eq_nil_iff rrfK v l).mp (List.length_eq_zero.mp hlen.symm)
  · rintro ⟨hv, hl⟩
    subst hv; subst hl
    right
    have : rrfMerged rrfK [] [] = [] := (rrfMerged_eq_nil_iff rrfK [] []).mpr ⟨rfl, rfl⟩
    rw [this]
    rfl

/-- Counterexample to Claim C5: calling the hybrid search with `limit = 0`,
one vector candidate `A` and a visible node `A` returns one entity and does
issue the hydration queries — `options.limit || 10` turns a zero limit into
the default 10 instead of yielding an empty result. -/
theorem limit_zero_counterexample :
    (hybridSearchWithRRF ⟨fun _ => some [], fun _ => none⟩
        ⟨[⟨"A", "T", "[]", "id-a", 1, none, none, none⟩], []⟩
        (fun _ => [⟨"A", "T", 1⟩]) (fun _ => [])
        ⟨some 0, none, none, none, none⟩).2 = true
    ∧ (hybridSearchWithRRF ⟨fun _ => some [], fun _ => none⟩
        ⟨[⟨"A", "T", "[]", "id-a", 1, none, none, none⟩], []⟩
        (fun _ => [⟨"A", "T", 1⟩]) (fun _ => [])
        ⟨some 0, none, none, none, none⟩).1.total = 1 := by
  constructor <;>
    norm_num +decide [hybridSearchWithRRF, effLimit, effRrfK, sortedResults, rrfSortedAll,
      rrfMerged, addKeywordResults, addVectorResults, mapSet, mapGet, List.insertionSort,
      List.orderedInsert, rrfRel, entityQueryRows, relationQueryRows, hydrateEntity,
      formatTimestamp]

/-- Claim C5 as amended: a `limit` of 0 is replaced by the default 10, so
the call behaves exactly as if the option were omitted; an empty result
(`entities = []`, `relations = []`, `total = 0`) with no hydration call
occurs exactly when both ranker responses are empty (the fused candidate
list is empty). -/
theorem limit_zero_behaves_as_default :
    (∀ (ext : Ext) (g : Graph) (vq : ℕ → List VectorRecord)
        (kq : ℕ → List KeywordRecord) (ms : Option ℚ) (et : Option (List String))
        (hs : Option Bool) (rk : Option ℚ),
        hybridSearchWithRRF ext g vq kq ⟨some 0, ms, et, hs, rk⟩
          = hybridSearchWithRRF ext g vq kq ⟨none, ms, et, hs, rk⟩)
    ∧ (∀ (ext : Ext) (g : Graph) (vq : ℕ → List VectorRecord)
        (kq : ℕ → List KeywordRecord) (opts : SearchOptions),
        (hybridSearchWithRRF ext g vq kq opts).2 = false
          ↔ vq (effLimit opts.limit * 2) = [] ∧ kq (effLimit opts.limit * 2) = [])
    ∧ (∀ (ext : Ext) (g : Graph) (vq : ℕ → List VectorRecord)
        (kq : ℕ → List KeywordRecord) (opts : SearchOptions),
        (hybridSearchWithRRF ext g vq kq opts).2 = false →
        (hybridSearchWithRRF ext g vq kq opts).1 = ⟨[], [], 0⟩) := by
  refine ⟨fun _ _ _ _ _ _ _ _ => rfl, ?_, ?_⟩
  · intro ext g vq kq opts
    simp only [hybridSearchWithRRF]
    by_cases hc : (sortedResults (effRrfK opts.rrfK) (effLimit opts.limit)
        (vq (effLimit opts.limit * 2)) (kq (effLimit opts.limit * 2))).isEmpty = true
    · rw [if_pos hc]
      simp only [eq_self_iff_true, true_iff]
      exact (sortedResults_eq_nil_iff _ _ (effLimit_pos _) _ _).mp (List.isEmpty_iff.mp hc)
    · rw [if_neg hc]
      constructor
      · intro h; simp at h
      · rintro ⟨hv, hl⟩
        exact absurd (List.isEmpty_iff.mpr
          ((sortedResults_eq_nil_iff _ _ (effLimit_pos _) _ _).mpr ⟨hv, hl⟩)) hc
  · intro ext g vq kq opts h
    simp only [hybridSearchWithRRF] at h ⊢
    by_cases hc : (sortedResults (effRrfK opts.rrfK) (effLimit opts.limit)
        (vq (effLimit opts.limit * 2)) (kq (effLimit opts.limit * 2))).isEmpty = true
    · rw [if_pos hc]
    · rw [if_neg hc] at h
      simp at h

/-- Witness for the amended Claim C5: a call with both ranker responses
empty did not hydrate, and by the theorem its result is the empty
`SearchResult`. -/
theorem limit_zero_behaves_as_default_witness :
    (hybridSearchWithRRF ⟨fun _ => some [], fun _ => none⟩ ⟨[], []⟩
        (fun _ => []) (fun _ => []) ⟨none, none, none, none, none⟩).1 = ⟨[], [], 0⟩ :=
  limit_zero_behaves_as_default.2.2 ⟨fun _ => some [], fun _ => none⟩ ⟨[], []⟩
    (fun _ => []) (fun _ => []) ⟨none, none, none, none, none⟩ rfl

/-- Claim C8 as amended: the returned entities appear in the order in which
the underlying store returns the hydration rows (the graph's node order
restricted to visible candidate names); the code does not re-sort them into
fused-candidate order. -/
theorem entities_follow_hydration_row_order :
    ∀ (ext : Ext) (g : Graph) (vq : ℕ → List VectorRecord)
      (kq : ℕ → List KeywordRecord) (opts : SearchOptions),
      (hybridSearchWithRRF ext g vq kq opts).1.entities.map Entity.name
        = (entityQueryRows g (hybridNames vq kq opts)).map EntityNode.name := by
  intro ext g vq kq opts
  simp only [hybridSearchWithRRF, hybridNames]
  by_cases hc : (sortedResults (effRrfK opts.rrfK) (effLimit opts.limit)
      (vq (effLimit opts.limit * 2)) (kq (effLimit opts.limit * 2))).isEmpty = true
  · rw [if_pos hc, List.isEmpty_iff.mp hc]
    simp [entityQueryRows]
  · rw [if_neg hc]
    simp [List.map_map, hydrateEntity, Function.comp]

/-- Counterexample to Claim C8: with fused candidate order `[A, B]` but the
store returning the hydration rows as `[B, A]`, the result lists `B` before
`A` — store order, not fused order. -/
theorem entities_not_in_fused_order :
    hybridNames (fun _ => [⟨"A", "T", 1⟩, ⟨"B", "T", 1/2⟩]) (fun _ => [])
        ⟨none, none, none, none, none⟩ = ["A", "B"]
    ∧ (hybridSearchWithRRF ⟨fun _ => some [], fun _ => none⟩
        ⟨[⟨"B", "T", "[]", "id-b", 1, none, none, none⟩,
          ⟨"A", "T", "[]", "id-a", 1, none, none, none⟩], []⟩
        (fun _ => [⟨"A", "T", 1⟩, ⟨"B", "T", 1/2⟩]) (fun _ => [])
        ⟨none, none, none, none, none⟩).1.entities.map Entity.name = ["B", "A"]
    ∧ (["B", "A"] : List String) ≠ ["A", "B"] := by
  refine ⟨?_, ?_, by decide⟩ <;>
    norm_num +decide [hybridSearchWithRRF, hybridNames, effLimit, effRrfK, sortedResults,
      rrfSortedAll, rrfMerged, addKeywordResults, addVectorResults, mapSet, mapGet,
      List.insertionSort, List.orderedInsert, rrfRel, entityQueryRows, relationQueryRows,
      hydrateEntity, formatTimestamp]

/-- Claim C9: when the serialized observations of a hydrated, visible
candidate entity fail to deserialize, the search still succeeds, keeps the
entity, and substitutes the empty observation list for it. -/
theorem observation_parse_failure_recovered :
    ∀ (ext : Ext) (g : Graph) (vq : ℕ → List VectorRecord)
      (kq : ℕ → List KeywordRecord) (opts : SearchOptions) (n : EntityNode),
      n ∈ g.nodes → n.validTo = none → n.name ∈ hybridNames vq kq opts →
      ext.jsonParse n.observations = none →
      (hybridSearchWithRRF ext g vq kq opts).2 = true
      ∧ ∃ e ∈ (hybridSearchWithRRF ext g vq kq opts).1.entities,
          e.name = n.name ∧ e.observations = [] := by
  intro ext g vq kq opts n hmem hvis hname hparse
  have hne : ¬ (sortedResults (effRrfK opts.rrfK) (effLimit opts.limit)
      (vq (effLimit opts.limit * 2)) (kq (effLimit opts.limit * 2))).isEmpty = true := by
    intro hc
    rw [hybridNames, List.isEmpty_iff.mp hc] at hname
    simp at hname
  simp only [hybridSearchWithRRF]
  rw [if_neg hne]
  refine ⟨rfl, ⟨hydrateEntity ext n, ?_, rfl, ?_⟩⟩
  · apply List.mem_map_of_mem
    rw [entityQueryRows]
    apply List.mem_filter.mpr
    refine ⟨hmem, ?_⟩
    rw [hvis]
    simp only [Option.isNone_none, Bool.and_true]
    rw [hybridNames] at hname
    simpa using hname
  · simp [hydrateEntity, hparse]

/-- Witness for Claim C9: entity `X` stores the unparsable observations
string `CORRUPT`; the search still returns it, with `observations = []`. -/
theorem observation_parse_failure_recovered_witness :
    (hybridSearchWithRRF ⟨fun _ => none, fun _ => none⟩
        ⟨[⟨"X", "T", "CORRUPT", "id-x", 1, none, none, none⟩], []⟩
        (fun _ => [⟨"X", "T", 1⟩]) (fun _ => [])
        ⟨none, none, none, none, none⟩).2 = true
    ∧ ∃ e ∈ (hybridSearchWithRRF ⟨fun _ => none, fun _ => none⟩
        ⟨[⟨"X", "T", "CORRUPT", "id-x", 1, none, none, none⟩], []⟩
        (fun _ => [⟨"X", "T", 1⟩]) (fun _ => [])
        ⟨none, none, none, none, none⟩).1.entities,
        e.name = "X" ∧ e.observations = [] :=
  observation_parse_failure_recovered ⟨fun _ => none, fun _ => none⟩
    ⟨[⟨"X", "T", "CORRUPT", "id-x", 1, none, none, none⟩], []⟩
    (fun _ => [⟨"X", "T", 1⟩]) (fun _ => []) ⟨none, none, none, none, none⟩
    ⟨"X", "T", "CORRUPT", "id-x", 1, none, none, none⟩
    (by simp) rfl
    (by norm_num +decide [hybridNames, effLimit, effRrfK, sortedResults, rrfSortedAll,
      rrfMerged, addKeywordResults, addVectorResults, mapSet, mapGet, List.insertionSort,
      List.orderedInsert, rrfRel])
    rfl

/-- Claim C7 as amended: every returned relation stems from an edge whose
own `validTo` is absent and whose endpoint names both lie in the fused
candidate name set; an endpoint is guaranteed to be among the returned
entities whenever its node is currently visible — the query checks the
names against `$names` but not endpoint visibility. -/
theorem relations_endpoints_among_candidates :
    ∀ (ext : Ext) (g : Graph) (vq : ℕ → List VectorRecord)
      (kq : ℕ → List KeywordRecord) (opts : SearchOptions) (rel : Relation),
      (∀ r ∈ g.edges, r.fromNode ∈ g.nodes ∧ r.toNode ∈ g.nodes) →
      rel ∈ (hybridSearchWithRRF ext g vq kq opts).1.relations →
      ∃ edge ∈ g.edges,
        edge.validTo = none
        ∧ edge.fromNode.name = rel.fromName ∧ edge.toNode.name = rel.toName
        ∧ rel.fromName ∈ hybridNames vq kq opts
        ∧ rel.toName ∈ hybridNames vq kq opts
        ∧ (edge.fromNode.validTo = none →
            ∃ e ∈ (hybridSearchWithRRF ext g vq kq opts).1.entities,
              e.name = rel.fromName)
        ∧ (edge.toNode.validTo = none →
            ∃ e ∈ (hybridSearchWithRRF ext g vq kq opts).1.entities,
              e.name = rel.toName) := by
  intro ext g vq kq opts rel hwf hrel
  simp only [hybridSearchWithRRF] at hrel ⊢
  by_cases hc : (sortedResults (effRrfK opts.rrfK) (effLimit opts.limit)
      (vq (effLimit opts.limit * 2)) (kq (effLimit opts.limit * 2))).isEmpty = true
  · rw [if_pos hc] at hrel
    simp at hrel
  · rw [if_neg hc] at hrel ⊢
    simp only [relationQueryRows] at hrel
    obtain ⟨edge, hedge, hproj⟩ := List.mem_map.mp hrel
    obtain ⟨hedges, hcond⟩ := List.mem_filter.mp hedge
    simp only [Bool.and_eq_true, Option.isNone_iff_eq_none] at hcond
    obtain ⟨⟨hfromc, htoc⟩, hval⟩ := hcond
    subst hproj
    refine ⟨edge, hedges, hval, rfl, rfl, ?_, ?_, ?_, ?_⟩
    · rw [hybridNames]
      simpa using hfromc
    · rw [hybridNames]
      simpa using htoc
    · intro hv
      refine ⟨hydrateEntity ext edge.fromNode, ?_, rfl⟩
      apply List.mem_map_of_mem
      rw [entityQueryRows]
      apply List.mem_filter.mpr
      refine ⟨(hwf edge hedges).1, ?_⟩
      rw [hv]
      simp only [Option.isNone_none, Bool.and_true]
      exact hfromc
    · intro hv
      refine ⟨hydrateEntity ext edge.toNode, ?_, rfl⟩
      apply List.mem_map_of_mem
      rw [entityQueryRows]
      apply List.mem_filter.mpr
      refine ⟨(hwf edge hedges).2, ?_⟩
      rw [hv]
      simp only [Option.isNone_none, Bool.and_true]
      exact htoc

/-- Counterexample to Claim C7: node `A` is deleted (`validTo` set) but its
name is still a fused candidate, and its visible outgoing edge to `B` is
returned even though `A` is not among the returned entities. -/
theorem relation_with_invisible_endpoint :
    (hybridSearchWithRRF ⟨fun _ => some [], fun _ => none⟩
        ⟨[⟨"A", "T", "[]", "id-a", 1, none, none, some 5⟩,
          ⟨"B", "T", "[]", "id-b", 1, none, none, none⟩],
         [⟨⟨"A", "T", "[]", "id-a", 1, none, none, some 5⟩,
           ⟨"B", "T", "[]", "id-b", 1, none, none, none⟩, "rel", none⟩]⟩
        (fun _ => [⟨"A", "T", 1⟩, ⟨"B", "T", 1/2⟩]) (fun _ => [])
        ⟨none, none, none, none, none⟩).1.relations = [⟨"A", "B", "rel"⟩]
    ∧ (hybridSearchWithRRF ⟨fun _ => some [], fun _ => none⟩
        ⟨[⟨"A", "T", "[]", "id-a", 1, none, none, some 5⟩,
          ⟨"B", "T", "[]", "id-b", 1, none, none, none⟩],
         [⟨⟨"A", "T", "[]", "id-a", 1, none, none, some 5⟩,
           ⟨"B", "T", "[]", "id-b", 1, none, none, none⟩, "rel", none⟩]⟩
        (fun _ => [⟨"A", "T", 1⟩, ⟨"B", "T", 1/2⟩]) (fun _ => [])
        ⟨none, none, none, none, none⟩).1.entities.map Entity.name = ["B"]
    ∧ ("A" : String) ∉ (["B"] : List String) := by
  refine ⟨?_, ?_, by decide⟩ <;>
    norm_num +decide [hybridSearchWithRRF, effLimit, effRrfK, sortedResults, rrfSortedAll,
      rrfMerged, addKeywordResults, addVectorResults, mapSet, mapGet, List.insertionSort,
      List.orderedInsert, rrfRel, entityQueryRows, relationQueryRows, hydrateEntity,
      formatTimestamp]

/-- Witness for the amended Claim C7 at a graph with two visible nodes and
one visible edge between them. -/
theorem relations_endpoints_among_candidates_witness :
    ∃ edge ∈ [(⟨⟨"A", "T", "[]", "id-a", 1, none, none, none⟩, ⟨"B", "T", "[]", "id-b", 1, none, none, none⟩, "rel", none⟩ : RelationEdge)],
      edge.validTo = none
      ∧ edge.fromNode.name = ("A" : String) ∧ edge.toNode.name = ("B" : String)
      ∧ ("A" : String) ∈ hybridNames (fun _ => [⟨"A", "T", 1⟩, ⟨"B", "T", 1/2⟩]) (fun _ => ([] : List KeywordRecord)) ⟨none, none, none, none, none⟩
      ∧ ("B" : String) ∈ hybridNames (fun _ => [⟨"A", "T", 1⟩, ⟨"B", "T", 1/2⟩]) (fun _ => ([] : List KeywordRecord)) ⟨none, none, none, none, none⟩
      ∧ (edge.fromNode.validTo = none →
          ∃ e ∈ (hybridSearchWithRRF ⟨fun _ => some [], fun _ => none⟩
            ⟨[⟨"A", "T", "[]", "id-a", 1, none, none, none⟩, ⟨"B", "T", "[]", "id-b", 1, none, none, none⟩], [⟨⟨"A", "T", "[]", "id-a", 1, none, none, none⟩, ⟨"B", "T", "[]", "id-b", 1, none, none, none⟩, "rel", none⟩]⟩
            (fun _ => [⟨"A", "T", 1⟩, ⟨"B", "T", 1/2⟩]) (fun _ => ([] : List KeywordRecord)) ⟨none, none, none, none, none⟩).1.entities, e.name = ("A" : String))
      ∧ (edge.toNode.validTo = none →
          ∃ e ∈ (hybridSearchWithRRF ⟨fun _ => some [], fun _ => none⟩
            ⟨[⟨"A", "T", "[]", "id-a", 1, none, none, none⟩, ⟨"B", "T", "[]", "id-b", 1, none, none, none⟩], [⟨⟨"A", "T", "[]", "id-a", 1, none, none, none⟩, ⟨"B", "T", "[]", "id-b", 1, none, none, none⟩, "rel", none⟩]⟩
            (fun _ => [⟨"A", "T", 1⟩, ⟨"B", "T", 1/2⟩]) (fun _ => ([] : List KeywordRecord)) ⟨none, none, none, none, none⟩).1.entities, e.name = ("B" : String)) := by
  exact relations_endpoints_among_candidates ⟨fun _ => some [], fun _ => none⟩
    ⟨[⟨"A", "T", "[]", "id-a", 1, none, none, none⟩, ⟨"B", "T", "[]", "id-b", 1, none, none, none⟩], [⟨⟨"A", "T", "[]", "id-a", 1, none, none, none⟩, ⟨"B", "T", "[]", "id-b", 1, none, none, none⟩, "rel", none⟩]⟩
    (fun _ => [⟨"A", "T", 1⟩, ⟨"B", "T", 1/2⟩]) (fun _ => ([] : List KeywordRecord)) ⟨none, none, none, none, none⟩ ⟨"A", "B", "rel"⟩
    (by decide)
    (by norm_num +decide [hybridSearchWithRRF, effLimit, effRrfK, sortedResults,
      rrfSortedAll, rrfMerged, addKeywordResults, addVectorResults, mapSet, mapGet,
      List.insertionSort, List.orderedInsert, rrfRel, entityQueryRows, relationQueryRows,
      hydrateEntity, formatTimestamp])

end Memento
